import Mathlib

/-
Verification of the `spinning_top` spinlock (src/spinlock.rs) against its
specification.  The shared atomic flag is embedded as a plain boolean cell;
each atomic operation of the source becomes a pure state-passing function.
The blocking `lock` loop is embedded as a function of a finite schedule of
flag values observed at each atomic access (the environment may change the
flag between our accesses), producing the trace of accesses performed.
-/

namespace SpinningTop

/-- Embedding of `core::sync::atomic::AtomicBool`: a single boolean cell.
Memory orderings (`Acquire`, `Release`, `Relaxed`) are erased, as the
embedding is sequential per access. -/
structure AtomicBool where
  value : Bool
  deriving DecidableEq, Repr

/-- `AtomicBool::new(b)`. -/
def AtomicBool.new (b : Bool) : AtomicBool :=
  { value := b }

/-- `compare_exchange(current, new, _, _)`: if the cell holds `current`,
store `new` and return `Ok(previous)`; otherwise leave the cell unchanged
and return `Err(previous)`.  Result paired with the updated cell. -/
def AtomicBool.compare_exchange (a : AtomicBool) (current new : Bool) :
    Except Bool Bool × AtomicBool :=
  if a.value = current then (Except.ok a.value, { value := new })
  else (Except.error a.value, a)

/-- `load(_)`: read the cell. -/
def AtomicBool.load (a : AtomicBool) : Bool :=
  a.value

/-- `store(b, _)`: overwrite the cell with `b`. -/
def AtomicBool.store (_a : AtomicBool) (b : Bool) : AtomicBool :=
  { value := b }

/-- `struct RawSpinlock { locked: AtomicBool }`. -/
structure RawSpinlock where
  locked : AtomicBool
  deriving DecidableEq, Repr

/-- `const INIT: RawSpinlock = RawSpinlock { locked: AtomicBool::new(false) }`. -/
def RawSpinlock.INIT : RawSpinlock :=
  { locked := AtomicBool.new false }

/-- `fn try_lock(&self) -> bool {
  self.locked.compare_exchange(false, true, Acquire, Relaxed).is_ok() }`.
Returns the boolean result together with the updated lock state. -/
def RawSpinlock.try_lock (s : RawSpinlock) : Bool × RawSpinlock :=
  match s.locked.compare_exchange false true with
  | (Except.ok _, a) => (true, { locked := a })
  | (Except.error _, a) => (false, { locked := a })

/-- `fn unlock(&self) { self.locked.store(false, Release) }`. -/
def RawSpinlock.unlock (s : RawSpinlock) : RawSpinlock :=
  { locked := s.locked.store false }

/-- One atomic access performed by the `lock` loop, recorded in its trace:
a compare-and-swap attempt (via `try_lock`), a relaxed read of the flag, or
the `spin_loop_hint` busy-wait hint. -/
inductive Access where
  | cas (observed : Bool) (success : Bool)
  | load (observed : Bool)
  | spin_loop_hint
  deriving DecidableEq, Repr

/-- Which statement of the `lock` loop executes next: the outer
`try_lock` attempt, or the inner relaxed-read spin. -/
inductive Phase where
  | tryExchange
  | readSpin
  deriving DecidableEq, Repr

/-- The body of `fn lock(&self)`:
`while !self.try_lock() { while self.locked.load(Relaxed) { spin_loop_hint(); } }`,
run against a finite schedule `env` giving the flag value found at each of
our atomic accesses (other contexts may store to the flag in between).
Returns the trace of accesses and, when the lock was acquired within the
schedule, the lock state at the moment `lock` returns; an exhausted
schedule while still looping yields `none` (the call has not returned). -/
def lockAux : Phase → List Bool → List Access × Option RawSpinlock
  | _, [] => ([], none)
  | Phase.tryExchange, b :: env =>
    let r := RawSpinlock.try_lock { locked := AtomicBool.new b }
    if r.1 then
      ([Access.cas b true], some r.2)
    else
      let rest := lockAux Phase.readSpin env
      (Access.cas b false :: rest.1, rest.2)
  | Phase.readSpin, b :: env =>
    if (AtomicBool.new b).load then
      let rest := lockAux Phase.readSpin env
      (Access.load b :: Access.spin_loop_hint :: rest.1, rest.2)
    else
      let rest := lockAux Phase.tryExchange env
      (Access.load b :: rest.1, rest.2)

/-- `fn lock(&self)` starts at the outer `try_lock` attempt. -/
def RawSpinlock.lock (env : List Bool) : List Access × Option RawSpinlock :=
  lockAux Phase.tryExchange env

/-- Modelled from the spec: `pub type Spinlock<T> = lock_api::Mutex<RawSpinlock, T>`.
The generic typed-lock container comes from the external `lock_api` crate
(not part of this repository): it owns one `RawSpinlock` and one payload
value (spec §3: "owns one RawLock plus one payload value of type T"). -/
structure Spinlock (T : Type) where
  raw : RawSpinlock
  data : T
  deriving DecidableEq, Repr

/-- Modelled from the spec: construct `Lock<T>` from an initial payload
value — "new container, unlocked, owning that value". -/
def Spinlock.new {T : Type} (v : T) : Spinlock T :=
  { raw := RawSpinlock.INIT, data := v }

/-- Modelled from the spec: `pub type SpinlockGuard<.., T> = lock_api::MutexGuard<..>`
(external crate).  A guard gives dereferencing access to the payload. -/
structure SpinlockGuard (T : Type) where
  deref : T
  deriving DecidableEq, Repr

/-- Modelled from the spec: the wrapper `try_lock` delegates to
`RawSpinlock::try_lock` and, on success, returns a guard dereferencing to
the payload; on failure it returns the explicit "not acquired" result. -/
def Spinlock.try_lock {T : Type} (s : Spinlock T) :
    Option (SpinlockGuard T) × Spinlock T :=
  let r := s.raw.try_lock
  if r.1 then (some { deref := s.data }, { s with raw := r.2 })
  else (none, { s with raw := r.2 })

/-- Modelled from the spec: `into_inner()` consumes the container and
"extracts the payload by value without any locking". -/
def Spinlock.into_inner {T : Type} (s : Spinlock T) : T :=
  s.data

/-- History state of one container: the raw lock, the number of live
guards, the number of `unlock` (release) calls performed so far, and the
payload value. -/
structure LockState (T : Type) where
  raw : RawSpinlock
  liveGuards : Nat
  releases : Nat
  value : T
  deriving DecidableEq, Repr

/-- An operation performed on a container: a `try_lock` call, a write
through a live guard, or the drop of a live guard. -/
inductive Event (T : Type) where
  | tryLockE
  | writeE (v : T)
  | dropE
  deriving DecidableEq, Repr

/-- One operation on a container.  `tryLockE` runs `RawSpinlock.try_lock`
and, exactly when it succeeds, a guard comes alive (modelled from the
spec: a guard is "created only as the result of a successful lock/try-lock
operation").  `writeE v` mutates the payload through a live guard.
`dropE` drops a live guard, which runs `RawSpinlock.unlock` exactly once.
Operations that require a live guard do nothing when none is live (such a
call cannot be written in the source language). -/
def LockState.step {T : Type} (s : LockState T) : Event T → LockState T
  | Event.tryLockE =>
    let r := s.raw.try_lock
    if r.1 then { s with raw := r.2, liveGuards := s.liveGuards + 1 }
    else { s with raw := r.2 }
  | Event.writeE v =>
    if 0 < s.liveGuards then { s with value := v } else s
  | Event.dropE =>
    if 0 < s.liveGuards then
      { s with raw := s.raw.unlock, liveGuards := s.liveGuards - 1,
               releases := s.releases + 1 }
    else s

/-- Run a sequence of operations. -/
def LockState.run {T : Type} (s : LockState T) : List (Event T) → LockState T
  | [] => s
  | e :: evs => (s.step e).run evs

/-- The history state of a freshly constructed container. -/
def LockState.init {T : Type} (v : T) : LockState T :=
  { raw := RawSpinlock.INIT, liveGuards := 0, releases := 0, value := v }

/-- View a history state as the container it describes. -/
def LockState.toSpinlock {T : Type} (s : LockState T) : Spinlock T :=
  { raw := s.raw, data := s.value }

/-- A sequence of operations is well formed from `s` when every write and
every drop happens while a guard is live. -/
def wfFrom {T : Type} (s : LockState T) : List (Event T) → Bool
  | [] => true
  | e :: evs =>
    (match e with
     | Event.tryLockE => true
     | Event.writeE _ => decide (0 < s.liveGuards)
     | Event.dropE => decide (0 < s.liveGuards)) && wfFrom (s.step e) evs

/-- Specification-side function (spec §8, "Consuming extraction"): the
last value written via any guard, or the initial value when no write
occurred. -/
def lastWrittenSpec {T : Type} (v : T) : List (Event T) → T
  | [] => v
  | Event.writeE w :: evs => lastWrittenSpec w evs
  | Event.tryLockE :: evs => lastWrittenSpec v evs
  | Event.dropE :: evs => lastWrittenSpec v evs

/-- Run of two independent containers: each event is tagged with the
container it acts on (`true` = first, `false` = second). -/
def runPair {T : Type} (p : LockState T × LockState T) :
    List (Bool × Event T) → LockState T × LockState T
  | [] => p
  | (side, e) :: evs =>
    runPair (if side then (p.1.step e, p.2) else (p.1, p.2.step e)) evs

/-- Specification-side checker (spec §4.1, acquire algorithm): the trace of
a `lock` call repeatedly attempts the exchange; a failed attempt is
followed by relaxed reads of the flag, each read observing `true` followed
by a busy-wait hint, until a read observes `false`, after which the
exchange is retried; a successful exchange ends the trace at once.  The
boolean argument tells whether the next access is expected to be a read of
the inner spin (`true`) or an exchange attempt (`false`); a trace may stop
at any point without acquiring (the schedule ran out while spinning). -/
def lockTraceSpec : Bool → List Access → Bool
  | _, [] => true
  | false, Access.cas false true :: rest => rest.isEmpty
  | false, Access.cas true false :: rest => lockTraceSpec true rest
  | true, Access.load true :: Access.spin_loop_hint :: rest => lockTraceSpec true rest
  | true, Access.load false :: rest => lockTraceSpec false rest
  | _, _ => false

theorem try_lock_unlocked (a : RawSpinlock) (h : a.locked.value = false) :
    a.try_lock = (true, { locked := { value := true } }) := by
  simp [RawSpinlock.try_lock, AtomicBool.compare_exchange, h]

theorem try_lock_locked (a : RawSpinlock) (h : a.locked.value = true) :
    a.try_lock = (false, a) := by
  simp [RawSpinlock.try_lock, AtomicBool.compare_exchange, h]

theorem try_lock_fst (a : RawSpinlock) : (a.try_lock).1 = !a.locked.value := by
  cases hv : a.locked.value
  · simp [try_lock_unlocked a hv]
  · simp [try_lock_locked a hv]

/-- The phase of the `lock` loop the checker `lockTraceSpec` expects. -/
def phaseBit : Phase → Bool
  | Phase.tryExchange => false
  | Phase.readSpin => true

theorem lockAux_traceSpec (env : List Bool) (p : Phase) :
    lockTraceSpec (phaseBit p) (lockAux p env).1 = true := by
  induction env generalizing p with
  | nil => cases p <;> simp [lockAux, lockTraceSpec, phaseBit]
  | cons b env ih =>
    cases p with
    | tryExchange =>
      cases b with
      | false =>
        simp [lockAux, lockTraceSpec, phaseBit, RawSpinlock.try_lock,
          AtomicBool.compare_exchange, AtomicBool.new]
      | true =>
        simpa [lockAux, lockTraceSpec, phaseBit, RawSpinlock.try_lock,
          AtomicBool.compare_exchange, AtomicBool.new] using ih Phase.readSpin
    | readSpin =>
      cases b with
      | false =>
        simpa [lockAux, lockTraceSpec, phaseBit, AtomicBool.load,
          AtomicBool.new] using ih Phase.tryExchange
      | true =>
        simpa [lockAux, lockTraceSpec, phaseBit, AtomicBool.load,
          AtomicBool.new] using ih Phase.readSpin

theorem lockAux_acquired_state (env : List Bool) (p : Phase) :
    (lockAux p env).2 = none ∨
      (lockAux p env).2 = some { locked := { value := true } } := by
  induction env generalizing p with
  | nil => simp [lockAux]
  | cons b env ih =>
    cases p with
    | tryExchange =>
      cases b with
      | false =>
        simp [lockAux, RawSpinlock.try_lock, AtomicBool.compare_exchange,
          AtomicBool.new]
      | true =>
        simpa [lockAux, RawSpinlock.try_lock, AtomicBool.compare_exchange,
          AtomicBool.new] using ih Phase.readSpin
    | readSpin =>
      cases b with
      | false =>
        simpa [lockAux, AtomicBool.load, AtomicBool.new] using ih Phase.tryExchange
      | true =>
        simpa [lockAux, AtomicBool.load, AtomicBool.new] using ih Phase.readSpin

theorem lockAux_mem_iff (env : List Bool) (p : Phase) :
    (lockAux p env).2.isSome = true ↔ Access.cas false true ∈ (lockAux p env).1 := by
  induction env generalizing p with
  | nil => simp [lockAux]
  | cons b env ih =>
    cases p with
    | tryExchange =>
      cases b with
      | false =>
        simp [lockAux, RawSpinlock.try_lock, AtomicBool.compare_exchange,
          AtomicBool.new]
      | true =>
        simpa [lockAux, RawSpinlock.try_lock, AtomicBool.compare_exchange,
          AtomicBool.new] using ih Phase.readSpin
    | readSpin =>
      cases b with
      | false =>
        simpa [lockAux, AtomicBool.load, AtomicBool.new] using ih Phase.tryExchange
      | true =>
        simpa [lockAux, AtomicBool.load, AtomicBool.new] using ih Phase.readSpin

theorem lockAux_all_locked (env : List Bool) (p : Phase)
    (h : ∀ b ∈ env, b = true) :
    (lockAux p env).2 = none ∧ Access.cas false true ∉ (lockAux p env).1 := by
  induction env generalizing p with
  | nil => simp [lockAux]
  | cons b env ih =>
    have hb : b = true := h b (by simp)
    subst hb
    have ih2 := fun p => ih p (fun c hc => h c (by simp [hc]))
    cases p with
    | tryExchange =>
      obtain ⟨h1, h2⟩ := ih2 Phase.readSpin
      simp [lockAux, RawSpinlock.try_lock, AtomicBool.compare_exchange,
        AtomicBool.new, h1, h2]
    | readSpin =>
      obtain ⟨h1, h2⟩ := ih2 Phase.readSpin
      simp [lockAux, AtomicBool.load, AtomicBool.new, h1, h2]

/-- The container invariant: at most one guard is live, and the raw flag is
set exactly when a guard is live. -/
def Inv {T : Type} (s : LockState T) : Prop :=
  s.liveGuards ≤ 1 ∧ s.raw.locked.value = decide (s.liveGuards = 1)

theorem inv_init {T : Type} (v : T) : Inv (LockState.init v) := by
  constructor <;> simp [LockState.init, RawSpinlock.INIT, AtomicBool.new]

theorem inv_step {T : Type} (s : LockState T) (e : Event T) (h : Inv s) :
    Inv (s.step e) := by
  obtain ⟨h1, h2⟩ := h
  cases e with
  | tryLockE =>
    cases hv : s.raw.locked.value with
    | false =>
      have hg : s.liveGuards = 0 := by
        rw [hv] at h2
        have := of_decide_eq_false h2.symm
        omega
      simp [LockState.step, try_lock_unlocked s.raw hv, Inv, hg]
    | true =>
      simpa [LockState.step, try_lock_locked s.raw hv, Inv] using ⟨h1, h2⟩
  | writeE v =>
    by_cases hg : 0 < s.liveGuards <;>
      simpa [LockState.step, hg, Inv] using ⟨h1, h2⟩
  | dropE =>
    by_cases hg : 0 < s.liveGuards
    · have hg1 : s.liveGuards = 1 := by omega
      simp [LockState.step, hg, Inv, hg1, RawSpinlock.unlock, AtomicBool.store]
    · simpa [LockState.step, hg, Inv] using ⟨h1, h2⟩

theorem inv_run {T : Type} (s : LockState T) (evs : List (Event T)) (h : Inv s) :
    Inv (s.run evs) := by
  induction evs generalizing s with
  | nil => simpa [LockState.run] using h
  | cons e evs ih =>
    simpa [LockState.run] using ih (s.step e) (inv_step s e h)

theorem step_tryLock_value {T : Type} (s : LockState T) :
    (s.step Event.tryLockE).value = s.value := by
  cases hv : s.raw.locked.value
  · simp [LockState.step, try_lock_unlocked s.raw hv]
  · simp [LockState.step, try_lock_locked s.raw hv]

theorem run_value_lastWritten {T : Type} (evs : List (Event T))
    (s : LockState T) (h : wfFrom s evs = true) :
    (s.run evs).value = lastWrittenSpec s.value evs := by
  induction evs generalizing s with
  | nil => simp [LockState.run, lastWrittenSpec]
  | cons e evs ih =>
    cases e with
    | tryLockE =>
      have h' : wfFrom (s.step Event.tryLockE) evs = true := by
        simpa [wfFrom] using h
      rw [LockState.run, lastWrittenSpec, ih _ h', step_tryLock_value]
    | writeE v =>
      rw [wfFrom, Bool.and_eq_true] at h
      obtain ⟨hg, h'⟩ := h
      have hg' : 0 < s.liveGuards := of_decide_eq_true hg
      rw [LockState.run, lastWrittenSpec, ih _ h']
      simp [LockState.step, hg']
    | dropE =>
      rw [wfFrom, Bool.and_eq_true] at h
      obtain ⟨hg, h'⟩ := h
      have hg' : 0 < s.liveGuards := of_decide_eq_true hg
      rw [LockState.run, lastWrittenSpec, ih _ h']
      simp [LockState.step, hg']

theorem runPair_proj {T : Type} (evs : List (Bool × Event T))
    (p : LockState T × LockState T) :
    (runPair p evs).1
      = p.1.run (evs.filterMap fun x => if x.1 then some x.2 else none) ∧
    (runPair p evs).2
      = p.2.run (evs.filterMap fun x => if x.1 then none else some x.2) := by
  induction evs generalizing p with
  | nil => simp [runPair, LockState.run]
  | cons x evs ih =>
    obtain ⟨side, e⟩ := x
    cases side with
    | false =>
      simpa [runPair, List.filterMap_cons, LockState.run] using ih (p.1, p.2.step e)
    | true =>
      simpa [runPair, List.filterMap_cons, LockState.run] using ih (p.1.step e, p.2)

/-- C1: Mutual exclusion — after any sequence of operations on a freshly
constructed container, at most one guard is live, and `try_lock` succeeds
exactly when no guard is live; in particular every `try_lock` made while a
guard is live (before it is dropped) returns the "not acquired" result. -/
theorem mutual_exclusion_run {T : Type} (v : T) (evs : List (Event T)) :
    (LockState.run (LockState.init v) evs).liveGuards ≤ 1 ∧
    ((LockState.run (LockState.init v) evs).raw.try_lock).1
      = decide ((LockState.run (LockState.init v) evs).liveGuards = 0) := by
  obtain ⟨h1, h2⟩ := inv_run (LockState.init v) evs (inv_init v)
  refine ⟨h1, ?_⟩
  rw [try_lock_fst, h2]
  have hc : (LockState.run (LockState.init v) evs).liveGuards = 0 ∨
      (LockState.run (LockState.init v) evs).liveGuards = 1 := by omega
  rcases hc with hc | hc <;> simp [hc]

/-- C2: `try_lock` is a single compare-and-swap on the flag: when the flag
is unlocked it sets it to locked and returns success; otherwise it returns
failure and leaves the flag (and the whole lock) unchanged.  Moreover no
operation other than a `try_lock` call ever moves the flag from `false` to
`true`. -/
theorem try_lock_cas_semantics {T : Type} (s : RawSpinlock)
    (st : LockState T) (e : Event T) :
    (s.locked.value = false →
      s.try_lock = (true, { locked := { value := true } })) ∧
    (s.locked.value = true → s.try_lock = (false, s)) ∧
    (e ≠ Event.tryLockE → (st.step e).raw.locked.value = true →
      st.raw.locked.value = true) := by
  refine ⟨try_lock_unlocked s, try_lock_locked s, ?_⟩
  intro he hl
  cases e with
  | tryLockE => exact absurd rfl he
  | writeE v =>
    by_cases hg : 0 < st.liveGuards <;> simpa [LockState.step, hg] using hl
  | dropE =>
    by_cases hg : 0 < st.liveGuards
    · simp [LockState.step, hg, RawSpinlock.unlock, AtomicBool.store] at hl
    · simpa [LockState.step, hg] using hl

theorem try_lock_cas_semantics_witness :
    RawSpinlock.try_lock { locked := { value := false } }
      = (true, { locked := { value := true } }) ∧
    RawSpinlock.try_lock { locked := { value := true } }
      = (false, { locked := { value := true } }) ∧
    ({ raw := { locked := { value := true } }, liveGuards := 1, releases := 0,
        value := (5 : Nat) } : LockState Nat).raw.locked.value = true := by
  refine ⟨?_, ?_, ?_⟩
  · exact (try_lock_cas_semantics { locked := { value := false } }
      (LockState.init (0 : Nat)) Event.dropE).1 rfl
  · exact (try_lock_cas_semantics { locked := { value := true } }
      (LockState.init (0 : Nat)) Event.dropE).2.1 rfl
  · exact (try_lock_cas_semantics { locked := { value := false } }
      ({ raw := { locked := { value := true } }, liveGuards := 1,
         releases := 0, value := (5 : Nat) } : LockState Nat)
      (Event.writeE 5)).2.2 (by decide) (by decide)

/-- C3: the `lock` loop repeatedly attempts `try_lock`; between failed
attempts it spins on relaxed reads of the flag, issuing a busy-wait hint
after each read that observes the flag locked, and retries the exchange
only once a read observes it unlocked (checker `lockTraceSpec`); it
acquires exactly when one `try_lock` attempt succeeds, and at the moment it
returns the flag is locked. -/
theorem lock_follows_spin_algorithm (env : List Bool) :
    lockTraceSpec false (RawSpinlock.lock env).1 = true ∧
    ((RawSpinlock.lock env).2.isSome = true ↔
      Access.cas false true ∈ (RawSpinlock.lock env).1) ∧
    ((RawSpinlock.lock env).2 = none ∨
      (RawSpinlock.lock env).2 = some { locked := { value := true } }) :=
  ⟨lockAux_traceSpec env Phase.tryExchange,
   lockAux_mem_iff env Phase.tryExchange,
   lockAux_acquired_state env Phase.tryExchange⟩

/-- C4: dropping the live guard runs `unlock` (release) exactly once,
leaves the flag unlocked and the guard count at zero, and a subsequent
`try_lock` on the container succeeds. -/
theorem guard_drop_release_once_reacquirable {T : Type} (v : T)
    (evs : List (Event T))
    (h : (LockState.run (LockState.init v) evs).liveGuards = 1) :
    ((LockState.run (LockState.init v) evs).step Event.dropE).releases
      = (LockState.run (LockState.init v) evs).releases + 1 ∧
    ((LockState.run (LockState.init v) evs).step Event.dropE).raw.locked.value
      = false ∧
    (((LockState.run (LockState.init v) evs).step Event.dropE).raw.try_lock).1
      = true ∧
    ((LockState.run (LockState.init v) evs).step Event.dropE).liveGuards
      = 0 := by
  have hg : 0 < (LockState.run (LockState.init v) evs).liveGuards := by omega
  have hstep : (LockState.run (LockState.init v) evs).step Event.dropE
      = { LockState.run (LockState.init v) evs with
            raw := (LockState.run (LockState.init v) evs).raw.unlock,
            liveGuards := (LockState.run (LockState.init v) evs).liveGuards - 1,
            releases := (LockState.run (LockState.init v) evs).releases + 1 } := by
    simp [LockState.step, hg]
  rw [hstep]
  refine ⟨rfl, by simp [RawSpinlock.unlock, AtomicBool.store], ?_, by simp [h]⟩
  rw [try_lock_fst]
  simp [RawSpinlock.unlock, AtomicBool.store]

theorem guard_drop_release_once_reacquirable_witness :
    (LockState.run (LockState.init (42 : Nat)) [Event.tryLockE]).liveGuards
      = 1 ∧
    ((LockState.run (LockState.init (42 : Nat))
        [Event.tryLockE]).step Event.dropE).raw.locked.value = false ∧
    (((LockState.run (LockState.init (42 : Nat))
        [Event.tryLockE]).step Event.dropE).raw.try_lock).1 = true :=
  ⟨by decide,
   (guard_drop_release_once_reacquirable (42 : Nat) [Event.tryLockE]
      (by decide)).2.1,
   (guard_drop_release_once_reacquirable (42 : Nat) [Event.tryLockE]
      (by decide)).2.2.1⟩

/-- C5: `unlock` unconditionally stores `false` into the flag, whatever its
prior value; it takes no input and produces no result beyond the updated
state. -/
theorem unlock_unconditionally_clears (s : RawSpinlock) :
    s.unlock = { locked := { value := false } } ∧
    (s.unlock).locked.value = false :=
  ⟨rfl, rfl⟩

/-- C6: a freshly constructed container is unlocked and owns its initial
value: the first `try_lock` on `Spinlock.new v` succeeds with a guard
dereferencing to `v`, leaves the flag locked, and a second `try_lock`
returns the empty result. -/
theorem new_first_try_lock {T : Type} (v : T) :
    (Spinlock.new v).raw.locked.value = false ∧
    ((Spinlock.new v).try_lock).1 = some { deref := v } ∧
    ((Spinlock.new v).try_lock).2
      = { raw := { locked := { value := true } }, data := v } ∧
    ((((Spinlock.new v).try_lock).2).try_lock).1 = none :=
  ⟨rfl, rfl, rfl, rfl⟩

/-- C7: after any well-formed sequence of operations leaving no guard
outstanding, `into_inner` of the resulting container returns the last
value written through any guard (the initial value when none was): writes
made under one guard survive, unchanged, the release and the next
acquisition. -/
theorem into_inner_last_written {T : Type} (v : T) (evs : List (Event T))
    (hwf : wfFrom (LockState.init v) evs = true)
    (_hng : (LockState.run (LockState.init v) evs).liveGuards = 0) :
    Spinlock.into_inner
        (LockState.toSpinlock (LockState.run (LockState.init v) evs))
      = lastWrittenSpec v evs := by
  simpa [Spinlock.into_inner, LockState.toSpinlock] using
    run_value_lastWritten evs (LockState.init v) hwf

theorem into_inner_last_written_witness :
    wfFrom (LockState.init (1 : Nat))
        [Event.tryLockE, Event.writeE 7, Event.dropE] = true ∧
    (LockState.run (LockState.init (1 : Nat))
        [Event.tryLockE, Event.writeE 7, Event.dropE]).liveGuards = 0 ∧
    Spinlock.into_inner (LockState.toSpinlock (LockState.run
        (LockState.init (1 : Nat))
        [Event.tryLockE, Event.writeE 7, Event.dropE]))
      = lastWrittenSpec 1 [Event.tryLockE, Event.writeE 7, Event.dropE] :=
  ⟨by decide, by decide,
   into_inner_last_written 1 [Event.tryLockE, Event.writeE 7, Event.dropE]
     (by decide) (by decide)⟩

/-- C8: `lock` never returns while the flag stays locked: under any finite
schedule on which every observation of the flag is `true`, the call has
not acquired — no `try_lock` attempt succeeded and the loop is still
spinning — however long the schedule. -/
theorem lock_blocks_while_locked (env : List Bool)
    (h : ∀ b ∈ env, b = true) :
    (RawSpinlock.lock env).2 = none ∧
    Access.cas false true ∉ (RawSpinlock.lock env).1 :=
  lockAux_all_locked env Phase.tryExchange h

theorem lock_blocks_while_locked_witness :
    (∀ b ∈ [true, true, true], b = true) ∧
    (RawSpinlock.lock [true, true, true]).2 = none :=
  ⟨by decide,
   (lock_blocks_while_locked [true, true, true] (by decide)).1⟩

/-- C9: two distinct containers never interfere: in any interleaved run,
each container's final state is the run of its own operations alone, so an
operation on one (lock attempt, write, or guard drop) leaves the other's
state — and the outcome of `try_lock` on the other — unchanged. -/
theorem distinct_locks_independent {T : Type}
    (p : LockState T × LockState T) (evs : List (Bool × Event T))
    (e : Event T) :
    (runPair p evs).1
      = p.1.run (evs.filterMap fun x => if x.1 then some x.2 else none) ∧
    (runPair p evs).2
      = p.2.run (evs.filterMap fun x => if x.1 then none else some x.2) ∧
    (runPair p [(true, e)]).2 = p.2 ∧
    (runPair p [(false, e)]).1 = p.1 ∧
    (((runPair p [(true, e)]).2).raw.try_lock).1 = ((p.2).raw.try_lock).1 := by
  obtain ⟨h1, h2⟩ := runPair_proj evs p
  exact ⟨h1, h2, rfl, rfl, rfl⟩

/-- C10: `into_inner` immediately after construction returns exactly the
construction value, even though no guard was ever obtained. -/
theorem new_into_inner_roundtrip {T : Type} (v : T) :
    (Spinlock.new v).into_inner = v :=
  rfl

end SpinningTop
